import Mathlib

/-!
Shallow embedding of cgmath's `src/transform.rs` (the `Transform` trait, the
`Decomposed` representation and the `AffineMatrix3` representation).

The scalar type `S` (a float in the source) is modelled as `ℚ`, so that the
approximate floating-point comparisons of the source become exact comparisons
and every definition is executable.  The vector, point, matrix and rotation
modules of the repository are external collaborators that are not part of
`src/`; they are modelled from the spec (section 1 and section 6 list exactly
the operations they provide), with `Modelled from the spec:` doc comments.
-/

namespace Cgmath

/-- Modelled from the spec: the external 3-component vector type
(`Vector3<S>`), a fixed-length numeric tuple. -/
structure V3 where
  x : ℚ
  y : ℚ
  z : ℚ
deriving DecidableEq

/-- Modelled from the spec: vector addition (`Vector::add_v`). -/
def V3.add (a b : V3) : V3 :=
  ⟨a.x + b.x, a.y + b.y, a.z + b.z⟩

/-- Modelled from the spec: multiplication of a vector by a scalar
(`Vector::mul_s`). -/
def V3.mulS (a : V3) (s : ℚ) : V3 :=
  ⟨a.x * s, a.y * s, a.z * s⟩

/-- Modelled from the spec: the zero vector (`zero()`). -/
def V3.zero : V3 := ⟨0, 0, 0⟩

/-- Modelled from the spec: the external 4-component vector type
(`Vector4<S>`), used for homogeneous coordinates. -/
structure V4 where
  x : ℚ
  y : ℚ
  z : ℚ
  w : ℚ
deriving DecidableEq

/-- Modelled from the spec: `Vector3::extend` — append a fourth component. -/
def V3.extend (a : V3) (s : ℚ) : V4 :=
  ⟨a.x, a.y, a.z, s⟩

/-- Modelled from the spec: `Vector4::truncate` — drop the fourth component. -/
def V4.truncate (a : V4) : V3 :=
  ⟨a.x, a.y, a.z⟩

/-- Modelled from the spec: `Vector4` addition. -/
def V4.add (a b : V4) : V4 :=
  ⟨a.x + b.x, a.y + b.y, a.z + b.z, a.w + b.w⟩

/-- Modelled from the spec: multiplication of a `Vector4` by a scalar. -/
def V4.mulS (a : V4) (s : ℚ) : V4 :=
  ⟨a.x * s, a.y * s, a.z * s, a.w * s⟩

/-- Modelled from the spec: the external point type (`Point3<S>`), an affine
position distinct from a vector. -/
structure P3 where
  x : ℚ
  y : ℚ
  z : ℚ
deriving DecidableEq

/-- Modelled from the spec: the origin point (`Point::origin`). -/
def P3.origin : P3 := ⟨0, 0, 0⟩

/-- Modelled from the spec: point-minus-point yielding a vector
(`Point::sub_p`). -/
def P3.subP (p q : P3) : V3 :=
  ⟨p.x - q.x, p.y - q.y, p.z - q.z⟩

/-- Modelled from the spec: point-plus-vector (`Point::add_v`). -/
def P3.addV (p : P3) (v : V3) : P3 :=
  ⟨p.x + v.x, p.y + v.y, p.z + v.z⟩

/-- Modelled from the spec: componentwise scaling of a point
(`Point::mul_s`). -/
def P3.mulS (p : P3) (s : ℚ) : P3 :=
  ⟨p.x * s, p.y * s, p.z * s⟩

/-- Modelled from the spec: reinterpret a vector as a point
(`Point::from_vec`). -/
def P3.fromVec (v : V3) : P3 :=
  ⟨v.x, v.y, v.z⟩

/-- Modelled from the spec: reinterpret a point as a vector
(`Point::to_vec`). -/
def P3.toVec (p : P3) : V3 :=
  ⟨p.x, p.y, p.z⟩

/-- Modelled from the spec: homogeneous form of a point, fourth component one
(`Point3::to_homogeneous`). -/
def P3.toHomogeneous (p : P3) : V4 :=
  ⟨p.x, p.y, p.z, 1⟩

/-- Modelled from the spec: conversion back from homogeneous coordinates with
perspective divide (`Point3::from_homogeneous`). -/
def P3.fromHomogeneous (v : V4) : P3 :=
  P3.fromVec (v.truncate.mulS (1 / v.w))

/-- Modelled from the spec: the external column-major 3×3 matrix type
(`Matrix3<S>`); fields are the columns. -/
structure M3 where
  x : V3
  y : V3
  z : V3
deriving DecidableEq

/-- Modelled from the spec: matrix–vector product (`Matrix3::mul_v`),
the linear combination of the columns. -/
def M3.mulV (m : M3) (v : V3) : V3 :=
  ((m.x.mulS v.x).add (m.y.mulS v.y)).add (m.z.mulS v.z)

/-- Modelled from the spec: matrix–matrix product (`Matrix3::mul_m`). -/
def M3.mulM (a b : M3) : M3 :=
  ⟨a.mulV b.x, a.mulV b.y, a.mulV b.z⟩

/-- Modelled from the spec: multiplication of a matrix by a scalar
(`Matrix3::mul_s`). -/
def M3.mulS (m : M3) (s : ℚ) : M3 :=
  ⟨m.x.mulS s, m.y.mulS s, m.z.mulS s⟩

/-- Modelled from the spec: the transposed matrix (`Matrix3::transpose`). -/
def M3.transpose (m : M3) : M3 :=
  ⟨⟨m.x.x, m.y.x, m.z.x⟩, ⟨m.x.y, m.y.y, m.z.y⟩, ⟨m.x.z, m.y.z, m.z.z⟩⟩

/-- Modelled from the spec: the identity matrix (`Matrix3::identity`). -/
def M3.identity : M3 :=
  ⟨⟨1, 0, 0⟩, ⟨0, 1, 0⟩, ⟨0, 0, 1⟩⟩

/-- Modelled from the spec: the external column-major 4×4 homogeneous matrix
type (`Matrix4<S>`); fields are the columns. -/
structure M4 where
  x : V4
  y : V4
  z : V4
  w : V4
deriving DecidableEq

/-- Modelled from the spec: matrix–vector product (`Matrix4::mul_v`). -/
def M4.mulV (m : M4) (v : V4) : V4 :=
  (((m.x.mulS v.x).add (m.y.mulS v.y)).add (m.z.mulS v.z)).add (m.w.mulS v.w)

/-- Modelled from the spec: matrix–matrix product (`Matrix4::mul_m`). -/
def M4.mulM (a b : M4) : M4 :=
  ⟨a.mulV b.x, a.mulV b.y, a.mulV b.z, a.mulV b.w⟩

/-- Modelled from the spec: the identity matrix (`Matrix4::identity`). -/
def M4.identity : M4 :=
  ⟨⟨1, 0, 0, 0⟩, ⟨0, 1, 0, 0⟩, ⟨0, 0, 1, 0⟩, ⟨0, 0, 0, 1⟩⟩

/-- Modelled from the spec: `Matrix3::to_matrix4` — embed a 3×3 matrix into a
4×4 homogeneous matrix, the extra column and row being `(0,0,0,1)`. -/
def M3.toMatrix4 (m : M3) : M4 :=
  ⟨m.x.extend 0, m.y.extend 0, m.z.extend 0, ⟨0, 0, 0, 1⟩⟩

/-- Determinant of a 3×3 matrix given by its nine entries, row by row. -/
def det3 (a b c d e f g h i : ℚ) : ℚ :=
  a * (e * i - f * h) - b * (d * i - f * g) + c * (d * h - e * g)

/-- Modelled from the spec: the determinant of a 4×4 matrix
(`Matrix4::determinant`), by cofactor expansion along the first row.
Entry at row `i`, column `j` is component `i` of column `j`. -/
def M4.det (m : M4) : ℚ :=
    m.x.x * det3 m.y.y m.z.y m.w.y m.y.z m.z.z m.w.z m.y.w m.z.w m.w.w
  - m.y.x * det3 m.x.y m.z.y m.w.y m.x.z m.z.z m.w.z m.x.w m.z.w m.w.w
  + m.z.x * det3 m.x.y m.y.y m.w.y m.x.z m.y.z m.w.z m.x.w m.y.w m.w.w
  - m.w.x * det3 m.x.y m.y.y m.z.y m.x.z m.y.z m.z.z m.x.w m.y.w m.z.w

/-- Modelled from the spec: the matrix contract's inversion routine
(`Matrix4::invert`): `none` when the matrix is singular (determinant zero,
the exact counterpart of the source's approximate comparison with zero),
otherwise the adjugate divided by the determinant.  The entry of the inverse
at row `i`, column `j` is the `(j,i)` cofactor divided by the determinant. -/
def M4.invert (m : M4) : Option M4 :=
  let d := m.det
  if d = 0 then none
  else
    some
      ⟨⟨  det3 m.y.y m.z.y m.w.y m.y.z m.z.z m.w.z m.y.w m.z.w m.w.w / d,
        -(det3 m.y.x m.z.x m.w.x m.y.z m.z.z m.w.z m.y.w m.z.w m.w.w) / d,
          det3 m.y.x m.z.x m.w.x m.y.y m.z.y m.w.y m.y.w m.z.w m.w.w / d,
        -(det3 m.y.x m.z.x m.w.x m.y.y m.z.y m.w.y m.y.z m.z.z m.w.z) / d⟩,
       ⟨-(det3 m.x.y m.z.y m.w.y m.x.z m.z.z m.w.z m.x.w m.z.w m.w.w) / d,
          det3 m.x.x m.z.x m.w.x m.x.z m.z.z m.w.z m.x.w m.z.w m.w.w / d,
        -(det3 m.x.x m.z.x m.w.x m.x.y m.z.y m.w.y m.x.w m.z.w m.w.w) / d,
          det3 m.x.x m.z.x m.w.x m.x.y m.z.y m.w.y m.x.z m.z.z m.w.z / d⟩,
       ⟨  det3 m.x.y m.y.y m.w.y m.x.z m.y.z m.w.z m.x.w m.y.w m.w.w / d,
        -(det3 m.x.x m.y.x m.w.x m.x.z m.y.z m.w.z m.x.w m.y.w m.w.w) / d,
          det3 m.x.x m.y.x m.w.x m.x.y m.y.y m.w.y m.x.w m.y.w m.w.w / d,
        -(det3 m.x.x m.y.x m.w.x m.x.y m.y.y m.w.y m.x.z m.y.z m.w.z) / d⟩,
       ⟨-(det3 m.x.y m.y.y m.z.y m.x.z m.y.z m.z.z m.x.w m.y.w m.z.w) / d,
          det3 m.x.x m.y.x m.z.x m.x.z m.y.z m.z.z m.x.w m.y.w m.z.w / d,
        -(det3 m.x.x m.y.x m.z.x m.x.y m.y.y m.z.y m.x.w m.y.w m.z.w) / d,
          det3 m.x.x m.y.x m.z.x m.x.y m.y.y m.z.y m.x.z m.y.z m.z.z / d⟩⟩

/-- Modelled from the spec: the rotation contract (`rotation.rs` is not under
`src/`).  The spec allows "any representation — quaternion, matrix, Euler —
supporting vector/point rotation, composition, inversion, and a look-at
constructor"; we use the matrix representation, so a rotation is a 3×3
matrix.  `Rot3.IsRotation` below states the well-formedness (orthogonality)
the spec assumes when it declares the rotation contract "assumed correct". -/
abbrev Rot3 : Type := M3

/-- Modelled from the spec: `Rotation::rotate_vector`, the matrix–vector
product in the matrix representation. -/
def Rot3.rotateVector (r : Rot3) (v : V3) : V3 :=
  M3.mulV r v

/-- Modelled from the spec: `Rotation::rotate_point`, rotation of a point via
its coordinate vector. -/
def Rot3.rotatePoint (r : Rot3) (p : P3) : P3 :=
  P3.fromVec (r.rotateVector p.toVec)

/-- Modelled from the spec: `Rotation::concat`, composition of rotations.  In
the matrix representation this is the matrix product; its direction is fixed
so that it agrees with the one matrix composition that IS in `src/`,
`AffineMatrix3::concat` (`self.mat.mul_m(&other.mat)`). -/
def Rot3.concat (a b : Rot3) : Rot3 :=
  M3.mulM a b

/-- Modelled from the spec: `Rotation::invert`, the (total) inverse of a
rotation — the transpose in the matrix representation. -/
def Rot3.invert (r : Rot3) : Rot3 :=
  M3.transpose r

/-- Modelled from the spec: `Rotation::identity`. -/
def Rot3.identity : Rot3 :=
  M3.identity

/-- A well-formed rotation matrix: orthogonality, the property that makes the
transpose the inverse.  The spec assumes every rotation value is well formed
("assumed correct"). -/
def Rot3.IsRotation (r : Rot3) : Prop :=
  M3.mulM r (M3.transpose r) = M3.identity ∧
  M3.mulM (M3.transpose r) r = M3.identity

/-- `Decomposed<S, V, R>` of `src/transform.rs`, instantiated at the 3D
vector/point types and the matrix rotation model: a scale, a rotation and a
displacement vector. -/
structure Decomposed3 where
  scale : ℚ
  rot : Rot3
  disp : V3
deriving DecidableEq

/-- `Transform::identity` for `Decomposed` (`src/transform.rs:94-100`):
scale one, identity rotation, zero displacement. -/
def Decomposed3.identity : Decomposed3 :=
  ⟨1, Rot3.identity, V3.zero⟩

/-- `Transform::transform_vector` for `Decomposed`
(`src/transform.rs:115-117`): `self.rot.rotate_vector(&vec.mul_s(self.scale))`. -/
def Decomposed3.transform_vector (t : Decomposed3) (v : V3) : V3 :=
  t.rot.rotateVector (v.mulS t.scale)

/-- `Transform::transform_point` for `Decomposed`
(`src/transform.rs:120-122`):
`self.rot.rotate_point(&point.mul_s(self.scale)).add_v(&self.disp)`. -/
def Decomposed3.transform_point (t : Decomposed3) (p : P3) : P3 :=
  (t.rot.rotatePoint (p.mulS t.scale)).addV t.disp

/-- `Transform::transform_as_point` default implementation
(`src/transform.rs:53-55`):
`self.transform_point(&Point::from_vec(vec)).to_vec()`. -/
def Decomposed3.transform_as_point (t : Decomposed3) (v : V3) : V3 :=
  (t.transform_point (P3.fromVec v)).toVec

/-- `Transform::concat` for `Decomposed` (`src/transform.rs:124-130`):
scale product, rotation-contract composition of the rotations, displacement
`self.transform_as_point(&other.disp)`. -/
def Decomposed3.concat (t o : Decomposed3) : Decomposed3 :=
  ⟨t.scale * o.scale, t.rot.concat o.rot, t.transform_as_point o.disp⟩

/-- `Transform::invert` for `Decomposed` (`src/transform.rs:132-145`): `none`
when the scale is (approximately, exactly over `ℚ`) zero; otherwise scale
`1/scale`, rotation `rot.invert()`, displacement
`r.rotate_vector(&self.disp).mul_s(-s)` for the new scale `s`. -/
def Decomposed3.invert (t : Decomposed3) : Option Decomposed3 :=
  if t.scale = 0 then none
  else
    let s := 1 / t.scale
    let r := t.rot.invert
    let d := (r.rotateVector t.disp).mulS (-s)
    some ⟨s, r, d⟩

/-- `Transform::invert_self` default implementation
(`src/transform.rs:73-75`): `*self = self.invert().unwrap()`.  The result is
the replaced value; `none` models the `unwrap` panic on a non-invertible
transform. -/
def Decomposed3.invert_self (t : Decomposed3) : Option Decomposed3 :=
  t.invert.map (fun u => u)

/-- `Transform::look_at` for `Decomposed` (`src/transform.rs:103-112`).  The
rotation contract's own `look_at` constructor is not under `src/` and the
spec gives it no formula, so it is taken as a parameter `rlook`; the body is
exactly the source: rotation `rlook (center - eye) up`, displacement that
rotation applied to `origin - eye`, scale one. -/
def Decomposed3.look_at (rlook : V3 → V3 → Rot3) (eye center : P3) (up : V3) :
    Decomposed3 :=
  let origin : P3 := P3.origin
  let rot : Rot3 := rlook (center.subP eye) up
  let disp : V3 := rot.rotateVector (origin.subP eye)
  ⟨1, rot, disp⟩

/-- `ToMatrix4 for Decomposed` (`src/transform.rs:166-170`): the rotation's
3×3 matrix scaled by the scale, embedded into a 4×4 matrix, whose fourth
column is then overwritten with the displacement extended by one. -/
def Decomposed3.to_matrix4 (t : Decomposed3) : M4 :=
  let m := (M3.mulS t.rot t.scale).toMatrix4
  { m with w := t.disp.extend 1 }

/-- `ToComponents::decompose` for `Decomposed` (`src/transform.rs:262-264`):
the scale broadcast into a vector, the rotation, the displacement. -/
def Decomposed3.decompose (t : Decomposed3) : V3 × Rot3 × V3 :=
  (⟨t.scale, t.scale, t.scale⟩, t.rot, t.disp)

/-- `AffineMatrix3<S>` of `src/transform.rs:195-197`: a homogeneous
transformation matrix. -/
structure AffineMatrix3 where
  mat : M4
deriving DecidableEq

/-- `Transform::identity` for `AffineMatrix3` (`src/transform.rs:201-203`). -/
def AffineMatrix3.identity : AffineMatrix3 :=
  ⟨M4.identity⟩

/-- `Transform::transform_vector` for `AffineMatrix3`
(`src/transform.rs:211-213`):
`self.mat.mul_v(&vec.extend(zero())).truncate()`. -/
def AffineMatrix3.transform_vector (a : AffineMatrix3) (v : V3) : V3 :=
  (a.mat.mulV (v.extend 0)).truncate

/-- `Transform::transform_point` for `AffineMatrix3`
(`src/transform.rs:216-218`):
`Point3::from_homogeneous(&self.mat.mul_v(&point.to_homogeneous()))`. -/
def AffineMatrix3.transform_point (a : AffineMatrix3) (p : P3) : P3 :=
  P3.fromHomogeneous (a.mat.mulV p.toHomogeneous)

/-- `Transform::concat` for `AffineMatrix3` (`src/transform.rs:221-223`):
`self.mat.mul_m(&other.mat)`. -/
def AffineMatrix3.concat (a b : AffineMatrix3) : AffineMatrix3 :=
  ⟨a.mat.mulM b.mat⟩

/-- `Transform::invert` for `AffineMatrix3` (`src/transform.rs:226-228`):
`self.mat.invert().map(|m| AffineMatrix3 { mat: m })`. -/
def AffineMatrix3.invert (a : AffineMatrix3) : Option AffineMatrix3 :=
  a.mat.invert.map (fun m => ⟨m⟩)

/-- `Transform::invert_self` default implementation
(`src/transform.rs:73-75`) at the `AffineMatrix3` instance; `none` models the
`unwrap` panic. -/
def AffineMatrix3.invert_self (a : AffineMatrix3) : Option AffineMatrix3 :=
  a.invert.map (fun u => u)

/-- A well-formed affine matrix: the fourth row is `(0,0,0,1)` (spec section
3: "the matrix must represent a valid affine map"). -/
def AffineMatrix3.IsAffine (a : AffineMatrix3) : Prop :=
  a.mat.x.w = 0 ∧ a.mat.y.w = 0 ∧ a.mat.z.w = 0 ∧ a.mat.w.w = 1

/-- Modelled from the spec (section 3, the invariant of `Decomposed`):
"applying this transform to a point P is defined as
`rotate(point * scale) + disp`", written directly with the vector
primitives. -/
def specDecomposedPoint (t : Decomposed3) (p : P3) : P3 :=
  P3.fromVec ((M3.mulV t.rot (p.toVec.mulS t.scale)).add t.disp)

/-- Modelled from the spec (section 3, the invariant of `Decomposed`):
"applying it to a free vector is `rotate(vector * scale)` (no
displacement)". -/
def specDecomposedVector (t : Decomposed3) (v : V3) : V3 :=
  M3.mulV t.rot (v.mulS t.scale)

/-! Algebraic helper lemmas about the modelled vector and matrix operations. -/

theorem V3.mulS_one (v : V3) : v.mulS 1 = v := by
  obtain ⟨x, y, z⟩ := v
  simp [V3.mulS]

theorem V3.mulS_mulS (v : V3) (a b : ℚ) : (v.mulS a).mulS b = v.mulS (a * b) := by
  obtain ⟨x, y, z⟩ := v
  simp only [V3.mulS, V3.mk.injEq]
  exact ⟨by ring, by ring, by ring⟩

theorem V3.add_zero_right (v : V3) : v.add V3.zero = v := by
  obtain ⟨x, y, z⟩ := v
  simp [V3.add, V3.zero]

theorem V3.mulS_neg_one_add (v : V3) : (v.mulS (-1)).add v = V3.zero := by
  obtain ⟨x, y, z⟩ := v
  simp only [V3.mulS, V3.add, V3.zero, V3.mk.injEq]
  exact ⟨by ring, by ring, by ring⟩

theorem M3.mulV_mulS (m : M3) (v : V3) (s : ℚ) :
    m.mulV (v.mulS s) = (m.mulV v).mulS s := by
  obtain ⟨⟨a, b, c⟩, ⟨d, e, f⟩, ⟨g, h, i⟩⟩ := m
  obtain ⟨x, y, z⟩ := v
  simp only [M3.mulV, V3.mulS, V3.add, V3.mk.injEq]
  exact ⟨by ring, by ring, by ring⟩

theorem M3.mulV_add (m : M3) (u v : V3) :
    m.mulV (u.add v) = (m.mulV u).add (m.mulV v) := by
  obtain ⟨⟨a, b, c⟩, ⟨d, e, f⟩, ⟨g, h, i⟩⟩ := m
  obtain ⟨x, y, z⟩ := u
  obtain ⟨x', y', z'⟩ := v
  simp only [M3.mulV, V3.mulS, V3.add, V3.mk.injEq]
  exact ⟨by ring, by ring, by ring⟩

theorem M3.mulV_zero (m : M3) : m.mulV V3.zero = V3.zero := by
  obtain ⟨⟨a, b, c⟩, ⟨d, e, f⟩, ⟨g, h, i⟩⟩ := m
  simp only [M3.mulV, V3.mulS, V3.add, V3.zero, V3.mk.injEq]
  exact ⟨by ring, by ring, by ring⟩

theorem M3.mulM_mulV (a b : M3) (v : V3) :
    (a.mulM b).mulV v = a.mulV (b.mulV v) := by
  obtain ⟨⟨a1, a2, a3⟩, ⟨b1, b2, b3⟩, ⟨c1, c2, c3⟩⟩ := a
  obtain ⟨⟨d1, d2, d3⟩, ⟨e1, e2, e3⟩, ⟨f1, f2, f3⟩⟩ := b
  obtain ⟨x, y, z⟩ := v
  simp only [M3.mulM, M3.mulV, V3.mulS, V3.add, V3.mk.injEq]
  exact ⟨by ring, by ring, by ring⟩

theorem M3.identity_mulV (v : V3) : M3.identity.mulV v = v := by
  obtain ⟨x, y, z⟩ := v
  simp only [M3.identity, M3.mulV, V3.mulS, V3.add, V3.mk.injEq]
  exact ⟨by ring, by ring, by ring⟩

theorem M3.identity_mulM (m : M3) : M3.identity.mulM m = m := by
  obtain ⟨⟨a, b, c⟩, ⟨d, e, f⟩, ⟨g, h, i⟩⟩ := m
  simp only [M3.identity, M3.mulM, M3.mulV, V3.mulS, V3.add, M3.mk.injEq,
    V3.mk.injEq]
  exact ⟨⟨by ring, by ring, by ring⟩, ⟨by ring, by ring, by ring⟩,
    ⟨by ring, by ring, by ring⟩⟩

theorem M3.mulM_identity (m : M3) : m.mulM M3.identity = m := by
  obtain ⟨⟨a, b, c⟩, ⟨d, e, f⟩, ⟨g, h, i⟩⟩ := m
  simp only [M3.identity, M3.mulM, M3.mulV, V3.mulS, V3.add, M3.mk.injEq,
    V3.mk.injEq]
  exact ⟨⟨by ring, by ring, by ring⟩, ⟨by ring, by ring, by ring⟩,
    ⟨by ring, by ring, by ring⟩⟩

theorem M4.mulM_mulV4 (a b : M4) (v : V4) :
    (a.mulM b).mulV v = a.mulV (b.mulV v) := by
  obtain ⟨⟨a1, a2, a3, a4⟩, ⟨b1, b2, b3, b4⟩, ⟨c1, c2, c3, c4⟩, ⟨d1, d2, d3, d4⟩⟩ := a
  obtain ⟨⟨e1, e2, e3, e4⟩, ⟨f1, f2, f3, f4⟩, ⟨g1, g2, g3, g4⟩, ⟨h1, h2, h3, h4⟩⟩ := b
  obtain ⟨x, y, z, w⟩ := v
  simp only [M4.mulM, M4.mulV, V4.mulS, V4.add, V4.mk.injEq]
  exact ⟨by ring, by ring, by ring, by ring⟩

theorem P3.fromHomogeneous_w_one (v : V4) (h : v.w = 1) :
    P3.fromHomogeneous v = ⟨v.x, v.y, v.z⟩ := by
  obtain ⟨x, y, z, w⟩ := v
  simp only at h
  subst h
  simp [P3.fromHomogeneous, P3.fromVec, V4.truncate, V3.mulS]

theorem P3.toHomogeneous_fromHomogeneous (v : V4) (h : v.w = 1) :
    (P3.fromHomogeneous v).toHomogeneous = v := by
  rw [P3.fromHomogeneous_w_one v h]
  obtain ⟨x, y, z, w⟩ := v
  simp only at h
  subst h
  simp [P3.toHomogeneous]

theorem M4.affine_mulV_w (m : M4) (hx : m.x.w = 0) (hy : m.y.w = 0)
    (hz : m.z.w = 0) (hw : m.w.w = 1) (v : V4) : (m.mulV v).w = v.w := by
  obtain ⟨⟨a1, a2, a3, a4⟩, ⟨b1, b2, b3, b4⟩, ⟨c1, c2, c3, c4⟩, ⟨d1, d2, d3, d4⟩⟩ := m
  obtain ⟨x, y, z, w⟩ := v
  simp only at hx hy hz hw
  subst hx hy hz hw
  simp only [M4.mulV, V4.mulS, V4.add]
  ring

theorem Decomposed3.transform_point_eq (t : Decomposed3) (p : P3) :
    t.transform_point p =
      P3.fromVec ((M3.mulV t.rot (p.toVec.mulS t.scale)).add t.disp) := by
  obtain ⟨s, r, d⟩ := t
  obtain ⟨x, y, z⟩ := p
  simp [Decomposed3.transform_point, Rot3.rotatePoint, Rot3.rotateVector,
    P3.mulS, P3.addV, P3.fromVec, P3.toVec, V3.mulS, V3.add, M3.mulV]

theorem Decomposed3.transform_as_point_eq (t : Decomposed3) (w : V3) :
    t.transform_as_point w = (M3.mulV t.rot (w.mulS t.scale)).add t.disp := by
  obtain ⟨s, r, d⟩ := t
  obtain ⟨x, y, z⟩ := w
  simp [Decomposed3.transform_as_point, Decomposed3.transform_point,
    Rot3.rotatePoint, Rot3.rotateVector, P3.mulS, P3.addV, P3.fromVec, P3.toVec,
    V3.mulS, V3.add, M3.mulV]

theorem Decomposed3.identity_transform_point (p : P3) :
    Decomposed3.identity.transform_point p = p := by
  obtain ⟨x, y, z⟩ := p
  simp [Decomposed3.identity, Decomposed3.transform_point, Rot3.rotatePoint,
    Rot3.rotateVector, Rot3.identity, M3.identity, M3.mulV, P3.mulS, P3.addV,
    P3.fromVec, P3.toVec, V3.mulS, V3.add, V3.zero]

theorem Decomposed3.identity_transform_vector (v : V3) :
    Decomposed3.identity.transform_vector v = v := by
  obtain ⟨x, y, z⟩ := v
  simp [Decomposed3.identity, Decomposed3.transform_vector, Rot3.rotateVector,
    Rot3.identity, M3.identity, M3.mulV, V3.mulS, V3.add]

/-- Helper for the look-at claim: a `Decomposed` with scale one, any rotation
`R` and displacement `R (origin - eye)` maps the eye point to the origin. -/
theorem look_at_shape_maps_eye_to_origin (R : Rot3) (eye : P3) :
    (Decomposed3.mk 1 R (R.rotateVector (P3.origin.subP eye))).transform_point
      eye = P3.origin := by
  obtain ⟨⟨a, b, c⟩, ⟨d, e, f⟩, ⟨g, h, i⟩⟩ := R
  obtain ⟨x, y, z⟩ := eye
  simp only [Decomposed3.transform_point, Rot3.rotatePoint, Rot3.rotateVector,
    M3.mulV, P3.origin, P3.subP, P3.mulS, P3.addV, P3.fromVec, P3.toVec,
    V3.mulS, V3.add, P3.mk.injEq]
  exact ⟨by ring, by ring, by ring⟩

/-! The claims. -/

/-- Claim C1, counterexample: with `t1 = {scale 1, rot id, disp (1,0,0)}` and
`t2 = {scale 2, rot id, disp 0}`, `t1.concat(&t2).transform_point(origin)` is
`(1,0,0)` while `t2.transform_point(&t1.transform_point(origin))` is
`(2,0,0)`: `concat` does NOT apply the receiver first and the argument
second. -/
theorem concat_self_first_counterexample :
    ¬ ((Decomposed3.mk 1 Rot3.identity ⟨1, 0, 0⟩).concat
          (Decomposed3.mk 2 Rot3.identity V3.zero)).transform_point P3.origin =
        (Decomposed3.mk 2 Rot3.identity V3.zero).transform_point
          ((Decomposed3.mk 1 Rot3.identity ⟨1, 0, 0⟩).transform_point
            P3.origin) := by
  simp [Decomposed3.concat, Decomposed3.transform_point,
    Decomposed3.transform_as_point, Rot3.concat, Rot3.identity,
    Rot3.rotatePoint, Rot3.rotateVector, M3.identity, M3.mulM, M3.mulV,
    V3.mulS, V3.add, V3.zero, P3.origin, P3.mulS, P3.addV, P3.fromVec,
    P3.toVec]

/-- Claim C1, amended: for every pair of transforms of the same
representation (any two `Decomposed` values, and any two well-formed affine
matrices) and every point `p`, `t1.concat(&t2).transform_point(p)` equals
`t1.transform_point(&t2.transform_point(p))` — `concat` applies the argument
(`other`) first and the receiver (`self`) second. -/
theorem concat_applies_other_first (t1 t2 : Decomposed3) (p : P3)
    (a1 a2 : AffineMatrix3) (q : P3) (h1 : a1.IsAffine) (h2 : a2.IsAffine) :
    (t1.concat t2).transform_point p =
      t1.transform_point (t2.transform_point p) ∧
    (a1.concat a2).transform_point q =
      a1.transform_point (a2.transform_point q) := by
  constructor
  · obtain ⟨s1, ⟨⟨a, b, c⟩, ⟨d, e, f⟩, ⟨g, h, i⟩⟩, ⟨u1, u2, u3⟩⟩ := t1
    obtain ⟨s2, ⟨⟨a', b', c'⟩, ⟨d', e', f'⟩, ⟨g', h', i'⟩⟩, ⟨w1, w2, w3⟩⟩ := t2
    obtain ⟨x, y, z⟩ := p
    simp only [Decomposed3.concat, Decomposed3.transform_point,
      Decomposed3.transform_as_point, Rot3.concat, Rot3.rotatePoint,
      Rot3.rotateVector, M3.mulM, M3.mulV, V3.mulS, V3.add, P3.mulS, P3.addV,
      P3.fromVec, P3.toVec, P3.mk.injEq]
    exact ⟨by ring, by ring, by ring⟩
  · obtain ⟨hx1, hy1, hz1, hw1⟩ := h1
    obtain ⟨hx2, hy2, hz2, hw2⟩ := h2
    have hq : (a2.mat.mulV q.toHomogeneous).w = 1 := by
      rw [M4.affine_mulV_w a2.mat hx2 hy2 hz2 hw2]
      rfl
    simp only [AffineMatrix3.concat, AffineMatrix3.transform_point]
    rw [M4.mulM_mulV4, P3.toHomogeneous_fromHomogeneous _ hq]

/-- Claim C1, amended, witness: the general theorem instantiated at the
counterexample pair (and at two concrete affine matrices, a rotation-scale
block and a translation). -/
theorem concat_applies_other_first_witness :
    ((Decomposed3.mk 1 Rot3.identity ⟨1, 0, 0⟩).concat
        (Decomposed3.mk 2 Rot3.identity V3.zero)).transform_point P3.origin =
      (Decomposed3.mk 1 Rot3.identity ⟨1, 0, 0⟩).transform_point
        ((Decomposed3.mk 2 Rot3.identity V3.zero).transform_point P3.origin) ∧
    ((AffineMatrix3.mk
          ⟨⟨0, 2, 0, 0⟩, ⟨-2, 0, 0, 0⟩, ⟨0, 0, 2, 0⟩, ⟨0, 0, 0, 1⟩⟩).concat
        (AffineMatrix3.mk
          ⟨⟨1, 0, 0, 0⟩, ⟨0, 1, 0, 0⟩, ⟨0, 0, 1, 0⟩,
            ⟨5, 6, 7, 1⟩⟩)).transform_point ⟨1, 2, 3⟩ =
      (AffineMatrix3.mk
          ⟨⟨0, 2, 0, 0⟩, ⟨-2, 0, 0, 0⟩, ⟨0, 0, 2, 0⟩, ⟨0, 0, 0, 1⟩⟩).transform_point
        ((AffineMatrix3.mk
            ⟨⟨1, 0, 0, 0⟩, ⟨0, 1, 0, 0⟩, ⟨0, 0, 1, 0⟩,
              ⟨5, 6, 7, 1⟩⟩).transform_point ⟨1, 2, 3⟩) :=
  concat_applies_other_first _ _ _ _ _ _
    ⟨rfl, rfl, rfl, rfl⟩ ⟨rfl, rfl, rfl, rfl⟩

/-- Claim C2: for every `Decomposed {scale, rot, disp}`, every point `p` and
every vector `v`, `transform_point(p)` is `rotate(p * scale) + disp` and
`transform_vector(v)` is `rotate(v * scale)` with no displacement, the spec's
defining formulas written with the raw vector primitives. -/
theorem decomposed_transform_matches_spec (t : Decomposed3) (p : P3)
    (v : V3) :
    t.transform_point p = specDecomposedPoint t p ∧
    t.transform_vector v = specDecomposedVector t v :=
  ⟨Decomposed3.transform_point_eq t p, rfl⟩

/-- Claim C3: the inverse law — for every `Decomposed` with a well-formed
rotation whose `invert()` succeeds (scale not zero), concatenating the
transform with its inverse maps every point and every vector to itself. -/
theorem decomposed_inverse_law (t u : Decomposed3) (hr : t.rot.IsRotation)
    (hinv : t.invert = some u) (p : P3) (v : V3) :
    (t.concat u).transform_point p = p ∧
    (t.concat u).transform_vector v = v := by
  have hs : ¬ t.scale = 0 := by
    intro h
    simp [Decomposed3.invert, h] at hinv
  rw [Decomposed3.invert, if_neg hs] at hinv
  have hu :
      u = Decomposed3.mk (1 / t.scale) t.rot.invert
        ((t.rot.invert.rotateVector t.disp).mulS (-(1 / t.scale))) :=
    (Option.some.injEq _ _ ▸ hinv).symm
  subst hu
  have hconcat :
      t.concat
        (Decomposed3.mk (1 / t.scale) t.rot.invert
          ((t.rot.invert.rotateVector t.disp).mulS (-(1 / t.scale)))) =
      Decomposed3.identity := by
    simp only [Decomposed3.concat, Decomposed3.identity, Rot3.concat,
      Rot3.invert, Rot3.identity, Rot3.rotateVector, Decomposed3.mk.injEq]
    refine ⟨by field_simp, hr.1, ?_⟩
    rw [Decomposed3.transform_as_point_eq]
    have hneg : -(1 / t.scale) * t.scale = -1 := by field_simp
    rw [V3.mulS_mulS, hneg, M3.mulV_mulS, ← M3.mulM_mulV, hr.1,
      M3.identity_mulV, V3.mulS_neg_one_add]
  rw [hconcat]
  exact ⟨Decomposed3.identity_transform_point p,
    Decomposed3.identity_transform_vector v⟩

/-- Claim C3, witness: the inverse law at scale `2`, a 90° rotation about the
`z` axis and displacement `(1,0,0)`, applied to the point `(5,6,7)` and the
vector `(1,1,1)`. -/
theorem decomposed_inverse_law_witness :
    ((Decomposed3.mk 2 ⟨⟨0, 1, 0⟩, ⟨-1, 0, 0⟩, ⟨0, 0, 1⟩⟩ ⟨1, 0, 0⟩).concat
        (Decomposed3.mk (1/2) ⟨⟨0, -1, 0⟩, ⟨1, 0, 0⟩, ⟨0, 0, 1⟩⟩
          ⟨0, 1/2, 0⟩)).transform_point ⟨5, 6, 7⟩ = ⟨5, 6, 7⟩ ∧
    ((Decomposed3.mk 2 ⟨⟨0, 1, 0⟩, ⟨-1, 0, 0⟩, ⟨0, 0, 1⟩⟩ ⟨1, 0, 0⟩).concat
        (Decomposed3.mk (1/2) ⟨⟨0, -1, 0⟩, ⟨1, 0, 0⟩, ⟨0, 0, 1⟩⟩
          ⟨0, 1/2, 0⟩)).transform_vector ⟨1, 1, 1⟩ = ⟨1, 1, 1⟩ :=
  decomposed_inverse_law _ _
    (by
      constructor <;>
        · simp only [Rot3.IsRotation, M3.mulM, M3.mulV, M3.transpose,
            M3.identity, V3.mulS, V3.add, M3.mk.injEq, V3.mk.injEq]
          norm_num)
    (by
      rw [Decomposed3.invert, if_neg (by norm_num)]
      simp only [Rot3.invert, Rot3.rotateVector, M3.transpose, M3.mulV,
        V3.mulS, V3.add, Option.some.injEq, Decomposed3.mk.injEq,
        M3.mk.injEq, V3.mk.injEq]
      norm_num)
    ⟨5, 6, 7⟩ ⟨1, 1, 1⟩

/-- Claim C4: for every `Decomposed` 3D transform (in particular the spec's
example of scale 2, a 90° rotation about an axis and displacement `(1,0,0)`)
and every point, applying `transform_point` through the `AffineMatrix3` built
from `to_matrix4` gives the same result as applying `transform_point`
directly on the `Decomposed` value. -/
theorem decomposed_to_matrix4_equivalence (t : Decomposed3) (p : P3) :
    (AffineMatrix3.mk t.to_matrix4).transform_point p =
      t.transform_point p := by
  obtain ⟨s, ⟨⟨a, b, c⟩, ⟨d, e, f⟩, ⟨g, h, i⟩⟩, ⟨u1, u2, u3⟩⟩ := t
  obtain ⟨x, y, z⟩ := p
  simp only [AffineMatrix3.transform_point, Decomposed3.to_matrix4,
    M3.toMatrix4, M3.mulS, M4.mulV, V4.mulS, V4.add, V3.extend, V4.truncate,
    V3.mulS, P3.toHomogeneous, P3.fromHomogeneous, P3.fromVec,
    Decomposed3.transform_point, Rot3.rotatePoint, Rot3.rotateVector,
    M3.mulV, V3.add, P3.mulS, P3.addV, P3.toVec, P3.mk.injEq]
  norm_num
  exact ⟨by ring, by ring, by ring⟩

/-- Claim C5: `invert()` returns `none` (no exception) on non-invertible
transforms: a `Decomposed` whose scale is zero, and an `AffineMatrix3` whose
matrix the inversion routine reports singular (determinant zero). -/
theorem invert_none_on_degenerate (t : Decomposed3) (a : AffineMatrix3)
    (hts : t.scale = 0) (had : a.mat.det = 0) :
    t.invert = none ∧ a.invert = none := by
  constructor
  · rw [Decomposed3.invert, if_pos hts]
  · rw [AffineMatrix3.invert, M4.invert]
    simp only [had, if_pos]
    rfl

/-- Claim C5, witness: a zero-scale `Decomposed` and a singular (zero) matrix
both fail to invert. -/
theorem invert_none_on_degenerate_witness :
    (Decomposed3.mk 0 Rot3.identity ⟨1, 2, 3⟩).invert = none ∧
    (AffineMatrix3.mk
        ⟨⟨0, 0, 0, 0⟩, ⟨0, 0, 0, 0⟩, ⟨0, 0, 0, 0⟩, ⟨0, 0, 0, 0⟩⟩).invert =
      none :=
  invert_none_on_degenerate _ _ rfl (by norm_num [M4.det, det3])

/-- Claim C6: `invert_self` replaces the transform with
`self.invert().unwrap()`: on a non-invertible transform the result is the
modelled `unwrap` panic (`none`), never a garbage transform, and on an
invertible transform it is exactly the unwrapped inverse — for both
representations. -/
theorem invert_self_unwraps_invert (t : Decomposed3) (a : AffineMatrix3) :
    (t.invert = none → t.invert_self = none) ∧
    (∀ u, t.invert = some u → t.invert_self = some u) ∧
    (a.invert = none → a.invert_self = none) ∧
    (∀ b, a.invert = some b → a.invert_self = some b) := by
  refine ⟨?_, ?_, ?_, ?_⟩
  · intro h
    simp [Decomposed3.invert_self, h]
  · intro u h
    simp [Decomposed3.invert_self, h]
  · intro h
    simp [AffineMatrix3.invert_self, h]
  · intro b h
    simp [AffineMatrix3.invert_self, h]

/-- Claim C6, witness: `invert_self` panics (modelled `none`) on a zero-scale
`Decomposed` and replaces an invertible one with its unwrapped inverse. -/
theorem invert_self_unwraps_invert_witness :
    (Decomposed3.mk 0 Rot3.identity ⟨1, 2, 3⟩).invert_self = none ∧
    (Decomposed3.mk 2 Rot3.identity ⟨1, 2, 3⟩).invert_self =
      some ⟨1/2, Rot3.identity, ⟨-(1/2), -1, -(3/2)⟩⟩ :=
  ⟨(invert_self_unwraps_invert (Decomposed3.mk 0 Rot3.identity ⟨1, 2, 3⟩)
        AffineMatrix3.identity).1 rfl,
    (invert_self_unwraps_invert (Decomposed3.mk 2 Rot3.identity ⟨1, 2, 3⟩)
        AffineMatrix3.identity).2.1 _
      (by
        rw [Decomposed3.invert, if_neg (by norm_num)]
        simp only [Rot3.invert, Rot3.rotateVector, Rot3.identity, M3.transpose,
          M3.identity, M3.mulV, V3.mulS, V3.add, Option.some.injEq,
          Decomposed3.mk.injEq, M3.mk.injEq, V3.mk.injEq]
        norm_num)⟩

/-- Claim C7: the identity law — for every `Decomposed` transform `t`,
`identity().concat(&t)` and `t.concat(&identity())` agree with `t` on every
point and every vector. -/
theorem identity_law (t : Decomposed3) (p : P3) (v : V3) :
    (Decomposed3.identity.concat t).transform_point p = t.transform_point p ∧
    (Decomposed3.identity.concat t).transform_vector v =
      t.transform_vector v ∧
    (t.concat Decomposed3.identity).transform_point p = t.transform_point p ∧
    (t.concat Decomposed3.identity).transform_vector v =
      t.transform_vector v := by
  have h1 : Decomposed3.identity.concat t = t := by
    obtain ⟨s, R, d⟩ := t
    simp only [Decomposed3.concat, Decomposed3.identity, Rot3.concat,
      Rot3.identity, Decomposed3.mk.injEq]
    refine ⟨by ring, M3.identity_mulM R, ?_⟩
    rw [Decomposed3.transform_as_point_eq]
    simp only [V3.mulS_one, M3.identity_mulV, V3.add_zero_right]
  have h2 : t.concat Decomposed3.identity = t := by
    obtain ⟨s, R, d⟩ := t
    simp only [Decomposed3.concat, Decomposed3.identity, Rot3.concat,
      Rot3.identity, Decomposed3.mk.injEq]
    refine ⟨by ring, M3.mulM_identity R, ?_⟩
    rw [Decomposed3.transform_as_point_eq]
    have hz : V3.zero.mulS s = V3.zero := by
      simp [V3.zero, V3.mulS]
    simp only [hz, M3.mulV_zero]
    obtain ⟨d1, d2, d3⟩ := d
    simp [V3.add, V3.zero]
  rw [h1, h2]
  exact ⟨rfl, rfl, rfl, rfl⟩

/-- Claim C8: `look_at` returns scale one, the rotation produced by the
rotation contract's `look_at` at direction `center - eye` and `up`, and a
displacement equal to that rotation applied to `origin - eye`; consequently
it maps the eye point to the local origin. -/
theorem look_at_matches_spec (rlook : V3 → V3 → Rot3) (eye center : P3)
    (up : V3) :
    (Decomposed3.look_at rlook eye center up).scale = 1 ∧
    (Decomposed3.look_at rlook eye center up).rot =
      rlook (center.subP eye) up ∧
    (Decomposed3.look_at rlook eye center up).disp =
      (rlook (center.subP eye) up).rotateVector (P3.origin.subP eye) ∧
    (Decomposed3.look_at rlook eye center up).transform_point eye =
      P3.origin := by
  refine ⟨rfl, rfl, rfl, ?_⟩
  exact look_at_shape_maps_eye_to_origin (rlook (center.subP eye) up) eye

/-- Claim C9: for every `Decomposed` whose scale is not zero, `invert()`
returns `some`, whatever the rotation component is — inversion of a
`Decomposed` never fails because of the rotation. -/
theorem decomposed_invert_total (t : Decomposed3) (hs : ¬ t.scale = 0) :
    ∃ u, t.invert = some u := by
  refine ⟨Decomposed3.mk (1 / t.scale) t.rot.invert
    ((t.rot.invert.rotateVector t.disp).mulS (-(1 / t.scale))), ?_⟩
  rw [Decomposed3.invert, if_neg hs]

/-- Claim C9, witness: a `Decomposed` with scale 2 and a deliberately
non-orthogonal (garbage) rotation matrix still inverts to `some`. -/
theorem decomposed_invert_total_witness :
    ∃ u,
      (Decomposed3.mk 2 ⟨⟨1, 2, 3⟩, ⟨4, 5, 6⟩, ⟨7, 8, 9⟩⟩ ⟨1, 0, 0⟩).invert =
        some u :=
  decomposed_invert_total _ (by norm_num)

/-- Claim C10: `AffineMatrix3::transform_vector` never depends on the fourth
(translation) column of the matrix: two matrices agreeing in their first
three columns transform every vector identically, because the vector is
extended with a zero fourth component before the multiplication. -/
theorem transform_vector_ignores_translation (m1 m2 : M4) (v : V3)
    (hx : m1.x = m2.x) (hy : m1.y = m2.y) (hz : m1.z = m2.z) :
    (AffineMatrix3.mk m1).transform_vector v =
      (AffineMatrix3.mk m2).transform_vector v := by
  obtain ⟨mx, my, mz, mw⟩ := m1
  obtain ⟨nx, ny, nz, nw⟩ := m2
  simp only at hx hy hz
  subst hx hy hz
  obtain ⟨w1, w2, w3, w4⟩ := mw
  obtain ⟨w1', w2', w3', w4'⟩ := nw
  obtain ⟨x, y, z⟩ := v
  simp only [AffineMatrix3.transform_vector, M4.mulV, V3.extend, V4.truncate,
    V4.mulS, V4.add, V3.mk.injEq]
  exact ⟨by ring, by ring, by ring⟩

/-- Claim C10, witness: two concrete matrices differing only in the
translation column transform the vector `(1,2,3)` identically. -/
theorem transform_vector_ignores_translation_witness :
    (AffineMatrix3.mk
        ⟨⟨0, 2, 0, 0⟩, ⟨-2, 0, 0, 0⟩, ⟨0, 0, 2, 0⟩,
          ⟨0, 0, 0, 1⟩⟩).transform_vector ⟨1, 2, 3⟩ =
      (AffineMatrix3.mk
        ⟨⟨0, 2, 0, 0⟩, ⟨-2, 0, 0, 0⟩, ⟨0, 0, 2, 0⟩,
          ⟨41, 42, 43, 1⟩⟩).transform_vector ⟨1, 2, 3⟩ :=
  transform_vector_ignores_translation _ _ _ rfl rfl rfl

end Cgmath
